import Mathlib

/-!
Verification of the Crosswalk extension service
(src/extensions/browser/xwalk_extension_service.cc).

The file embeds the service's pure logic in Lean: the extension-name
validator, the registry operations (register, lookup, enumeration) and
the observer callbacks (OnRenderProcessHostCreated, OnRuntimeAdded),
with the side effects of the callbacks (IPC sends, handler creation)
reified as an explicit action trace.

The type ExtensionMap is declared in the class header
(xwalk_extension_service.h), which is not among the provided sources;
following the spec (§3: "mapping from name → Extension,
insertion-ordered for deterministic announcement order") it is modelled
as an association list kept in insertion order.
-/

namespace Crosswalk

/-- ASCII digit test, mirroring base's IsAsciiDigit used by the validator. -/
def isAsciiDigit (c : Char) : Bool := '0' ≤ c && c ≤ '9'

/-- ASCII letter test, mirroring base's IsAsciiAlpha used by the validator. -/
def isAsciiAlpha (c : Char) : Bool := ('a' ≤ c && c ≤ 'z') || ('A' ≤ c && c ≤ 'Z')

/-- The character loop of ValidateExtensionName
(xwalk_extension_service.cc lines 48-75), with the two mutable flags
dot_allowed and digit_or_underscore_allowed made explicit parameters.
Returning false models the early `return false` paths; the final result
of the C++ function is the value of dot_allowed when the loop ends. -/
def validateLoop : List Char → Bool → Bool → Bool
  | [], dot_allowed, _ => dot_allowed
  | c :: rest, dot_allowed, dua =>
    if isAsciiDigit c then
      (if dua then validateLoop rest dot_allowed dua else false)
    else if c = '_' then
      (if dua then validateLoop rest dot_allowed dua else false)
    else if c = '.' then
      (if dot_allowed then validateLoop rest false false else false)
    else if isAsciiAlpha c then
      validateLoop rest true true
    else
      false

/-- ValidateExtensionName from xwalk_extension_service.cc: both flags
start out false and the loop runs over the characters of the name. -/
def ValidateExtensionName (extension_name : String) : Bool :=
  validateLoop extension_name.data false false

/-- Characters allowed after the leading letter of a segment:
ASCII letters, ASCII digits and underscore (spec §4.1). -/
def isSegChar (c : Char) : Bool := isAsciiAlpha c || isAsciiDigit c || c = '_'

/-- A well-formed segment per the grammar of spec §4.1: non-empty,
starts with an ASCII letter, continues with letters, digits or
underscore.  The spec's side condition that digits and underscore may
appear only after a letter has occurred in the segment is subsumed:
every segment begins with a letter. -/
def validSegment : List Char → Bool
  | [] => false
  | c :: rest => isAsciiAlpha c && rest.all isSegChar

/-- Joins a sequence of segments with single dots between consecutive
segments: the shape of a dotted name in the grammar of spec §4.1. -/
def dottedJoin : List (List Char) → List Char
  | [] => []
  | [seg] => seg
  | seg :: seg2 :: rest => seg ++ '.' :: dottedJoin (seg2 :: rest)

/-- The grammar of spec §4.1, stated from the spec's words: the name is
a non-empty sequence of dot-separated segments, each segment well
formed.  Leading, trailing or doubled dots are impossible because every
segment is non-empty and dots occur only between consecutive segments. -/
def matchesGrammar (name : String) : Prop :=
  ∃ segs : List (List Char), segs ≠ [] ∧ (∀ s ∈ segs, validSegment s = true) ∧
    name.data = dottedJoin segs

/-- Dotted tail of a name: a dot before every remaining segment.
dottedJoin (s :: segs) decomposes as s ++ dottedTail segs. -/
def dottedTail : List (List Char) → List Char
  | [] => []
  | seg :: rest => '.' :: (seg ++ dottedTail rest)

/-- Shape of the suffix of a valid name as seen from a point strictly
inside a segment, after its leading letter: the rest of the current
segment followed by zero or more dot-prefixed well-formed segments. -/
def RestShape (chars : List Char) : Prop :=
  ∃ pre segs, pre.all isSegChar = true ∧ (∀ s ∈ segs, validSegment s = true) ∧
    chars = pre ++ dottedTail segs

/-- An extension as the service sees it (external collaborator value):
its unique name and the JavaScript binding surface returned by
GetJavaScriptAPI(). -/
structure XWalkExtension where
  name : String
  javaScriptAPI : String
deriving DecidableEq

/-- Handle of a content render process (opaque to the service). -/
abbrev RenderProcessHost := Nat

/-- Handle of a runtime's WebContents (opaque to the service). -/
abbrev WebContents := Nat

/-- Modelled from the spec: the type ExtensionMap is declared in
xwalk_extension_service.h, which is not among the provided sources.
Spec §3 describes the registry as a mapping from name to Extension,
insertion-ordered for deterministic announcement order, so it is
modelled as an association list kept in insertion order. -/
abbrev ExtensionMap := List (String × XWalkExtension)

/-- Key lookup in the registry, the behaviour of ExtensionMap::find:
returns the entry stored under the name, none when absent. -/
def findExtension : ExtensionMap → String → Option XWalkExtension
  | [], _ => none
  | (k, v) :: rest, name => if k = name then some v else findExtension rest name

/-- The mutable state of XWalkExtensionService: the registry
(extensions_) and the recorded render process host
(render_process_host_, NULL until the first process-created event). -/
structure XWalkExtensionService where
  extensions : ExtensionMap
  render_process_host : Option RenderProcessHost
deriving DecidableEq

/-- The service as constructed: empty registry, no process recorded. -/
def emptyService : XWalkExtensionService :=
  { extensions := [], render_process_host := none }

/-- Outcome of XWalkExtensionService::RegisterExtension, one constructor
per return path of the source. -/
inductive RegisterResult
  /-- CHECK(!render_process_host_) failed: the process aborts; no value
  is returned to the caller and the registry is not touched. -/
  | checkFailure
  /-- The duplicate-name check hit (extensions_.find(name) succeeded):
  the function returns false, state unchanged, nothing is logged. -/
  | duplicateName (st : XWalkExtensionService)
  /-- ValidateExtensionName rejected the name: LOG(WARNING) emits the
  given message and the function returns false, state unchanged. -/
  | invalidName (st : XWalkExtensionService) (warning : String)
  /-- The extension was inserted and the function returns true. -/
  | registered (st : XWalkExtensionService)
deriving DecidableEq

/-- Whether the call returned true to the caller. -/
def RegisterResult.succeeded : RegisterResult → Bool
  | RegisterResult.registered _ => true
  | _ => false

/-- XWalkExtensionService::RegisterExtension
(xwalk_extension_service.cc lines 79-95): CHECK that no render process
host was recorded; reject duplicates; reject and warn on invalid names;
otherwise insert, preserving insertion order. -/
def RegisterExtension (service : XWalkExtensionService)
    (extension : XWalkExtension) : RegisterResult :=
  if service.render_process_host.isSome then
    RegisterResult.checkFailure
  else if (findExtension service.extensions extension.name).isSome then
    RegisterResult.duplicateName service
  else if ValidateExtensionName extension.name = false then
    RegisterResult.invalidName service
      ("Ignoring extension with invalid name: " ++ extension.name)
  else
    RegisterResult.registered
      { service with extensions := service.extensions ++ [(extension.name, extension)] }

/-- Observable side effects of the service on its collaborators:
the announcement IPC (host->Send of XWalkViewMsg_RegisterExtension with
the extension's name and JavaScript API) and CreateWebContentsHandler
on a runtime's WebContents. -/
inductive BrowserAction
  | sendRegisterExtension (host : RenderProcessHost) (name javaScriptAPI : String)
  | createWebContentsHandler (web_contents : WebContents)
deriving DecidableEq

/-- XWalkExtensionService::RegisterExtensionsForNewHost
(lines 142-150): iterate the registry, sending one
XWalkViewMsg_RegisterExtension per extension with its name and
JavaScript API. -/
def RegisterExtensionsForNewHost (service : XWalkExtensionService)
    (host : RenderProcessHost) : List BrowserAction :=
  service.extensions.map fun kv =>
    BrowserAction.sendRegisterExtension host kv.2.name kv.2.javaScriptAPI

/-- XWalkExtensionService::OnRenderProcessHostCreated (lines 97-111):
if a host was already recorded, return doing nothing; otherwise record
the host, announce all registered extensions to it, then create a
web-contents handler for every already-existing runtime.  The runtimes
argument is the list RuntimeRegistry::Get()->runtimes() at the time of
the call. -/
def OnRenderProcessHostCreated (service : XWalkExtensionService)
    (host : RenderProcessHost) (runtimes : List WebContents) :
    XWalkExtensionService × List BrowserAction :=
  if service.render_process_host.isSome then
    (service, [])
  else
    ({ service with render_process_host := some host },
      RegisterExtensionsForNewHost
          { service with render_process_host := some host } host
        ++ runtimes.map BrowserAction.createWebContentsHandler)

/-- XWalkExtensionService::GetExtensionForName (lines 113-119): key
lookup in the registry, NULL (none) when absent.  The function only
reads extensions_; in this embedding it is a pure function of the
state, so it cannot modify the registry. -/
def GetExtensionForName (service : XWalkExtensionService) (name : String) :
    Option XWalkExtension :=
  findExtension service.extensions name

/-- One runner attachment performed by CreateRunnersForHandler: a new
XWalkExtensionThreadedRunner for the given extension, attached under
the given frame id. -/
structure RunnerAttachment where
  frame_id : Int
  extension : XWalkExtension
deriving DecidableEq

/-- XWalkExtensionService::CreateRunnersForHandler (lines 121-129):
iterate the registry, creating one threaded runner per extension and
attaching it to the handler under the frame id. -/
def CreateRunnersForHandler (service : XWalkExtensionService)
    (frame_id : Int) : List RunnerAttachment :=
  service.extensions.map fun kv => { frame_id := frame_id, extension := kv.2 }

/-- XWalkExtensionService::OnRuntimeAdded (lines 131-134): create a
web-contents handler for the new runtime only when a render process
host has already been recorded. -/
def OnRuntimeAdded (service : XWalkExtensionService)
    (web_contents : WebContents) : List BrowserAction :=
  if service.render_process_host.isSome then
    [BrowserAction.createWebContentsHandler web_contents]
  else
    []

/-- The two observer callbacks the service registers for, as events. -/
inductive Event
  | renderProcessHostCreated (host : RenderProcessHost) (runtimes : List WebContents)
  | runtimeAdded (web_contents : WebContents)
deriving DecidableEq

/-- Dispatch of one observer event to the service's handler. -/
def step (service : XWalkExtensionService) :
    Event → XWalkExtensionService × List BrowserAction
  | Event.renderProcessHostCreated host runtimes =>
      OnRenderProcessHostCreated service host runtimes
  | Event.runtimeAdded web_contents =>
      (service, OnRuntimeAdded service web_contents)

/-- Runs a sequence of observer events, accumulating the action trace. -/
def runEvents (service : XWalkExtensionService) :
    List Event → XWalkExtensionService × List BrowserAction
  | [] => (service, [])
  | ev :: rest =>
    let out := step service ev
    let out2 := runEvents out.1 rest
    (out2.1, out.2 ++ out2.2)

/-- Registers a list of extensions in order, succeeding only when every
individual registration returns true. -/
def registerAll (service : XWalkExtensionService) :
    List XWalkExtension → Option XWalkExtensionService
  | [] => some service
  | e :: rest =>
    match RegisterExtension service e with
    | RegisterResult.registered st => registerAll st rest
    | _ => none

/-- The registry invariant of spec §3: every stored name passes the
name validator.  It holds of the freshly constructed service and is
preserved by every operation of the service. -/
def RegistryWF (service : XWalkExtensionService) : Prop :=
  ∀ kv ∈ service.extensions, ValidateExtensionName kv.1 = true

theorem dottedJoin_cons (seg : List Char) (segs : List (List Char)) :
    dottedJoin (seg :: segs) = seg ++ dottedTail segs := by
  induction segs generalizing seg with
  | nil => simp [dottedJoin, dottedTail]
  | cons seg2 rest ih =>
    simp only [dottedJoin, dottedTail, ih seg2]

theorem restShape_nil : RestShape [] := ⟨[], [], rfl, by simp, rfl⟩

theorem restShape_cons_seg {c : Char} (hc : isSegChar c = true) (rest : List Char) :
    RestShape (c :: rest) ↔ RestShape rest := by
  constructor
  · rintro ⟨pre, segs, hpre, hsegs, heq⟩
    cases pre with
    | nil =>
      cases segs with
      | nil => simp [dottedTail] at heq
      | cons s ss =>
        simp [dottedTail] at heq
        rw [heq.1] at hc
        exact absurd hc (by decide)
    | cons p pre2 =>
      simp only [List.cons_append, List.cons.injEq] at heq
      simp only [List.all_cons, Bool.and_eq_true] at hpre
      exact ⟨pre2, segs, hpre.2, hsegs, heq.2⟩
  · rintro ⟨pre, segs, hpre, hsegs, heq⟩
    exact ⟨c :: pre, segs, by simp [List.all_cons, hc, hpre], hsegs, by simp [heq]⟩

theorem restShape_cons_dot (rest : List Char) :
    RestShape ('.' :: rest) ↔
      ∃ c rest2, rest = c :: rest2 ∧ isAsciiAlpha c = true ∧ RestShape rest2 := by
  constructor
  · rintro ⟨pre, segs, hpre, hsegs, heq⟩
    cases pre with
    | cons p pre2 =>
      simp only [List.cons_append, List.cons.injEq] at heq
      simp only [List.all_cons, Bool.and_eq_true] at hpre
      rw [← heq.1] at hpre
      exact absurd hpre.1 (by decide)
    | nil =>
      cases segs with
      | nil => simp [dottedTail] at heq
      | cons s ss =>
        simp only [List.nil_append, dottedTail, List.cons.injEq, true_and] at heq
        cases s with
        | nil =>
          have h0 := hsegs [] (by simp)
          simp [validSegment] at h0
        | cons a s2 =>
          have hseg := hsegs (a :: s2) (by simp)
          simp only [validSegment, Bool.and_eq_true] at hseg
          refine ⟨a, s2 ++ dottedTail ss, by simp [heq], hseg.1,
            s2, ss, hseg.2, fun s hs => hsegs s (by simp [hs]), rfl⟩
  · rintro ⟨c, rest2, hrest, ha, pre, segs, hpre, hsegs, heq⟩
    refine ⟨[], (c :: pre) :: segs, rfl, ?_, ?_⟩
    · intro s hs
      rcases List.mem_cons.mp hs with rfl | hs2
      · simp only [validSegment, Bool.and_eq_true]
        exact ⟨ha, hpre⟩
      · exact hsegs s hs2
    · simp [dottedTail, hrest, heq]

theorem restShape_head (c : Char) (rest : List Char) (h : RestShape (c :: rest)) :
    isSegChar c = true ∨ c = '.' := by
  obtain ⟨pre, segs, hpre, hsegs, heq⟩ := h
  cases pre with
  | cons p pre2 =>
    simp only [List.cons_append, List.cons.injEq] at heq
    simp only [List.all_cons, Bool.and_eq_true] at hpre
    left
    rw [heq.1]
    exact hpre.1
  | nil =>
    cases segs with
    | nil => simp [dottedTail] at heq
    | cons s ss =>
      right
      simp [dottedTail] at heq
      exact heq.1

theorem alpha_not_digit {c : Char} (h : isAsciiAlpha c = true) : isAsciiDigit c = false := by
  simp [isAsciiAlpha, isAsciiDigit, Char.le_def, UInt32.le_def, BitVec.le_def] at *
  omega

theorem alpha_ne_underscore {c : Char} (h : isAsciiAlpha c = true) : ¬ (c = '_') := by
  intro hc
  rw [hc] at h
  exact absurd h (by decide)

theorem alpha_ne_dot {c : Char} (h : isAsciiAlpha c = true) : ¬ (c = '.') := by
  intro hc
  rw [hc] at h
  exact absurd h (by decide)

theorem validateLoop_start_iff (chars : List Char) :
    validateLoop chars false false = true ↔
      ∃ c rest, chars = c :: rest ∧ isAsciiAlpha c = true ∧
        validateLoop rest true true = true := by
  cases chars with
  | nil => simp [validateLoop]
  | cons c rest =>
    constructor
    · intro h
      by_cases hd : isAsciiDigit c = true
      · simp [validateLoop, hd] at h
      · by_cases hu : c = '_'
        · simp [validateLoop, hd, hu] at h
        · by_cases hdot : c = '.'
          · simp [validateLoop, hd, hu, hdot] at h
          · by_cases ha : isAsciiAlpha c = true
            · exact ⟨c, rest, rfl, ha, by simpa [validateLoop, hd, hu, hdot, ha] using h⟩
            · simp [validateLoop, hd, hu, hdot, ha] at h
    · rintro ⟨c2, rest2, heq, ha, hloop⟩
      injection heq with h1 h2
      subst h1
      subst h2
      simp [validateLoop, alpha_not_digit ha, alpha_ne_underscore ha, alpha_ne_dot ha,
        ha, hloop]

theorem validateLoop_rest_iff : ∀ (n : Nat) (chars : List Char), chars.length ≤ n →
    (validateLoop chars true true = true ↔ RestShape chars) := by
  intro n
  induction n with
  | zero =>
    intro chars hlen
    have hnil : chars = [] := List.length_eq_zero.mp (Nat.le_zero.mp hlen)
    subst hnil
    exact iff_of_true rfl restShape_nil
  | succ n ih =>
    intro chars hlen
    cases chars with
    | nil => exact iff_of_true rfl restShape_nil
    | cons c rest =>
      have hr : rest.length ≤ n := by
        simp only [List.length_cons] at hlen
        omega
      by_cases hd : isAsciiDigit c = true
      · have hseg : isSegChar c = true := by simp [isSegChar, hd]
        rw [restShape_cons_seg hseg rest]
        simpa [validateLoop, hd] using ih rest hr
      · by_cases hu : c = '_'
        · have hseg : isSegChar c = true := by simp [isSegChar, hu]
          rw [restShape_cons_seg hseg rest]
          simpa [validateLoop, hd, hu] using ih rest hr
        · by_cases hdot : c = '.'
          · subst hdot
            rw [restShape_cons_dot rest]
            have hstep : validateLoop ('.' :: rest) true true = validateLoop rest false false := by
              have h1 : isAsciiDigit '.' = false := by decide
              simp [validateLoop, h1]
            rw [hstep, validateLoop_start_iff rest]
            constructor
            · rintro ⟨c2, rest2, heq, ha, hloop⟩
              have hlen2 : rest2.length ≤ n := by
                rw [heq] at hr
                simp only [List.length_cons] at hr
                omega
              exact ⟨c2, rest2, heq, ha, (ih rest2 hlen2).mp hloop⟩
            · rintro ⟨c2, rest2, heq, ha, hrs⟩
              have hlen2 : rest2.length ≤ n := by
                rw [heq] at hr
                simp only [List.length_cons] at hr
                omega
              exact ⟨c2, rest2, heq, ha, (ih rest2 hlen2).mpr hrs⟩
          · by_cases ha : isAsciiAlpha c = true
            · have hseg : isSegChar c = true := by simp [isSegChar, ha]
              rw [restShape_cons_seg hseg rest]
              simpa [validateLoop, hd, hu, hdot, ha] using ih rest hr
            · constructor
              · intro h
                simp [validateLoop, hd, hu, hdot, ha] at h
              · intro h
                rcases restShape_head c rest h with hseg | hdotc
                · simp [isSegChar, hd, hu, ha] at hseg
                · exact absurd hdotc hdot

theorem grammar_iff_start (name : String) :
    matchesGrammar name ↔
      ∃ c rest, name.data = c :: rest ∧ isAsciiAlpha c = true ∧ RestShape rest := by
  constructor
  · rintro ⟨segs, hne, hsegs, heq⟩
    cases segs with
    | nil => exact absurd rfl hne
    | cons s ss =>
      rw [dottedJoin_cons] at heq
      cases s with
      | nil =>
        have h0 := hsegs [] (by simp)
        simp [validSegment] at h0
      | cons a s2 =>
        have hseg := hsegs (a :: s2) (by simp)
        simp only [validSegment, Bool.and_eq_true] at hseg
        exact ⟨a, s2 ++ dottedTail ss, by simp [heq], hseg.1,
          s2, ss, hseg.2, fun s hs => hsegs s (by simp [hs]), rfl⟩
  · rintro ⟨c, rest, heq, ha, pre, segs, hpre, hsegs, heq2⟩
    refine ⟨(c :: pre) :: segs, by simp, ?_, ?_⟩
    · intro s hs
      rcases List.mem_cons.mp hs with rfl | hs2
      · simp only [validSegment, Bool.and_eq_true]
        exact ⟨ha, hpre⟩
      · exact hsegs s hs2
    · rw [dottedJoin_cons, heq, heq2]
      simp

/-- C1: the extension-name validator accepts a string iff it matches the
dotted-segment grammar — a non-empty dot-separated sequence of segments,
each starting with an ASCII letter and continuing with ASCII letters,
digits or underscore — with no leading, trailing or doubled dots; in
particular "com.example.foo" and "a" validate to true, while "",
"com..foo", ".com", "com.", "1com" and "com._foo" validate to false. -/
theorem c1_validator_iff_grammar :
    (∀ name : String, ValidateExtensionName name = true ↔ matchesGrammar name) ∧
    ValidateExtensionName "com.example.foo" = true ∧
    ValidateExtensionName "a" = true ∧
    ValidateExtensionName "" = false ∧
    ValidateExtensionName "com..foo" = false ∧
    ValidateExtensionName ".com" = false ∧
    ValidateExtensionName "com." = false ∧
    ValidateExtensionName "1com" = false ∧
    ValidateExtensionName "com._foo" = false := by
  refine ⟨?_, by decide, by decide, by decide, by decide, by decide, by decide,
    by decide, by decide⟩
  intro name
  rw [ValidateExtensionName, grammar_iff_start, validateLoop_start_iff]
  constructor
  · rintro ⟨c, rest, heq, ha, hloop⟩
    exact ⟨c, rest, heq, ha, (validateLoop_rest_iff rest.length rest le_rfl).mp hloop⟩
  · rintro ⟨c, rest, heq, ha, hrs⟩
    exact ⟨c, rest, heq, ha, (validateLoop_rest_iff rest.length rest le_rfl).mpr hrs⟩

theorem register_eq_registered (st : XWalkExtensionService) (e : XWalkExtension)
    (h1 : st.render_process_host = none)
    (h2 : findExtension st.extensions e.name = none)
    (h3 : ValidateExtensionName e.name = true) :
    RegisterExtension st e =
      RegisterResult.registered
        { st with extensions := st.extensions ++ [(e.name, e)] } := by
  simp [RegisterExtension, h1, h2, h3]

theorem register_registered {st st' : XWalkExtensionService} {e : XWalkExtension}
    (h : RegisterExtension st e = RegisterResult.registered st') :
    st.render_process_host = none ∧
    findExtension st.extensions e.name = none ∧
    ValidateExtensionName e.name = true ∧
    st' = { st with extensions := st.extensions ++ [(e.name, e)] } := by
  by_cases h1 : st.render_process_host.isSome
  · simp [RegisterExtension, h1] at h
  · by_cases h2 : (findExtension st.extensions e.name).isSome
    · simp [RegisterExtension, h1, h2] at h
    · by_cases h3 : ValidateExtensionName e.name = false
      · simp [RegisterExtension, h1, h2, h3] at h
      · have hv : ValidateExtensionName e.name = true := by
          revert h3
          cases ValidateExtensionName e.name <;> simp
        have hn1 : st.render_process_host = none :=
          Option.not_isSome_iff_eq_none.mp h1
        have hn2 : findExtension st.extensions e.name = none :=
          Option.not_isSome_iff_eq_none.mp h2
        rw [register_eq_registered st e hn1 hn2 hv] at h
        injection h with h
        exact ⟨hn1, hn2, hv, h.symm⟩

theorem findExtension_append_none {m1 : ExtensionMap} (m2 : ExtensionMap)
    {name : String} (h : findExtension m1 name = none) :
    findExtension (m1 ++ m2) name = findExtension m2 name := by
  induction m1 with
  | nil => rfl
  | cons kv rest ih =>
    obtain ⟨k, v⟩ := kv
    by_cases hk : k = name
    · simp [findExtension, hk] at h
    · simp only [findExtension, hk, if_false, List.cons_append] at h ⊢
      exact ih h

theorem findExtension_append_some {m1 : ExtensionMap} (m2 : ExtensionMap)
    {name : String} {v : XWalkExtension} (h : findExtension m1 name = some v) :
    findExtension (m1 ++ m2) name = some v := by
  induction m1 with
  | nil => simp [findExtension] at h
  | cons kv rest ih =>
    obtain ⟨k, w⟩ := kv
    by_cases hk : k = name
    · simp only [findExtension, hk, if_true] at h ⊢
      exact h
    · simp only [findExtension, hk, if_false] at h ⊢
      exact ih h

theorem findExtension_none_iff {m : ExtensionMap} {name : String} :
    findExtension m name = none ↔ ∀ kv ∈ m, kv.1 ≠ name := by
  induction m with
  | nil => simp [findExtension]
  | cons kv rest ih =>
    obtain ⟨k, v⟩ := kv
    by_cases hk : k = name
    · subst hk
      simp [findExtension]
    · simp [findExtension, hk, ih]

theorem findExtension_of_all_valid {m : ExtensionMap} {name : String}
    (hwf : ∀ kv ∈ m, ValidateExtensionName kv.1 = true)
    (hname : ValidateExtensionName name = false) :
    findExtension m name = none := by
  rw [findExtension_none_iff]
  intro kv hkv hk
  have := hwf kv hkv
  rw [hk, hname] at this
  cases this

theorem registerAll_extensions :
    ∀ (exts : List XWalkExtension) (st st' : XWalkExtensionService),
      registerAll st exts = some st' →
      st'.extensions = st.extensions ++ exts.map (fun e => (e.name, e)) ∧
      st'.render_process_host = st.render_process_host := by
  intro exts
  induction exts with
  | nil =>
    intro st st' h
    simp only [registerAll, Option.some.injEq] at h
    subst h
    simp
  | cons e rest ih =>
    intro st st' h
    simp only [registerAll] at h
    cases hre : RegisterExtension st e with
    | registered st1 =>
      rw [hre] at h
      simp only at h
      obtain ⟨-, -, -, hst1⟩ := register_registered hre
      obtain ⟨ih1, ih2⟩ := ih st1 st' h
      subst hst1
      refine ⟨?_, ih2⟩
      rw [ih1]
      simp
    | checkFailure => rw [hre] at h; simp at h
    | duplicateName st1 => rw [hre] at h; simp at h
    | invalidName st1 w => rw [hre] at h; simp at h

theorem registerAll_found :
    ∀ (exts : List XWalkExtension) (st st' : XWalkExtensionService),
      registerAll st exts = some st' →
      ∀ e ∈ exts, findExtension st'.extensions e.name = some e := by
  intro exts
  induction exts with
  | nil =>
    intro st st' h e he
    simp at he
  | cons e2 rest ih =>
    intro st st' h e he
    simp only [registerAll] at h
    cases hre : RegisterExtension st e2 with
    | registered st1 =>
      rw [hre] at h
      simp only at h
      rcases List.mem_cons.mp he with rfl | he2
      · obtain ⟨-, hfresh, -, hst1⟩ := register_registered hre
        obtain ⟨hext, -⟩ := registerAll_extensions rest st1 st' h
        have hfind : findExtension st1.extensions e.name = some e := by
          rw [hst1]
          simp only
          rw [findExtension_append_none _ hfresh]
          simp [findExtension]
        rw [hext]
        exact findExtension_append_some _ hfind
      · exact ih st1 st' h e he2
    | checkFailure => rw [hre] at h; simp at h
    | duplicateName st1 => rw [hre] at h; simp at h
    | invalidName st1 w => rw [hre] at h; simp at h

theorem registerAll_absent :
    ∀ (exts : List XWalkExtension) (st st' : XWalkExtensionService) (name : String),
      registerAll st exts = some st' →
      findExtension st.extensions name = none →
      name ∉ exts.map XWalkExtension.name →
      findExtension st'.extensions name = none := by
  intro exts
  induction exts with
  | nil =>
    intro st st' name h h0 hni
    simp only [registerAll, Option.some.injEq] at h
    subst h
    exact h0
  | cons e2 rest ih =>
    intro st st' name h h0 hni
    simp only [registerAll] at h
    cases hre : RegisterExtension st e2 with
    | registered st1 =>
      rw [hre] at h
      simp only at h
      simp only [List.map_cons, List.mem_cons, not_or] at hni
      have hne : ¬(e2.name = name) := fun hh => hni.1 hh.symm
      have h1 : findExtension st1.extensions name = none := by
        obtain ⟨-, -, -, hst1⟩ := register_registered hre
        rw [hst1]
        simp only
        rw [findExtension_append_none _ h0]
        simp [findExtension, hne]
      exact ih st1 st' name h h1 hni.2
    | checkFailure => rw [hre] at h; simp at h
    | duplicateName st1 => rw [hre] at h; simp at h
    | invalidName st1 w => rw [hre] at h; simp at h

theorem registryWF_empty : RegistryWF emptyService := by
  intro kv h
  simp [emptyService] at h

theorem registryWF_register {st st' : XWalkExtensionService} {e : XWalkExtension}
    (hwf : RegistryWF st)
    (h : RegisterExtension st e = RegisterResult.registered st') :
    RegistryWF st' := by
  obtain ⟨-, -, hv, hst⟩ := register_registered h
  subst hst
  intro kv hkv
  simp only [List.mem_append, List.mem_singleton] at hkv
  rcases hkv with hkv | rfl
  · exact hwf kv hkv
  · exact hv

theorem step_state_of_some {st : XWalkExtensionService} {p : RenderProcessHost}
    (hp : st.render_process_host = some p) (ev : Event) : (step st ev).1 = st := by
  cases ev with
  | renderProcessHostCreated h rts => simp [step, OnRenderProcessHostCreated, hp]
  | runtimeAdded wc => rfl

theorem runEvents_state_of_some {st : XWalkExtensionService} {p : RenderProcessHost}
    (hp : st.render_process_host = some p) :
    ∀ evs : List Event, (runEvents st evs).1 = st := by
  intro evs
  induction evs with
  | nil => rfl
  | cons ev rest ih =>
    simp only [runEvents]
    rw [step_state_of_some hp ev]
    exact ih

theorem step_process_host_some (st : XWalkExtensionService)
    (h : RenderProcessHost) (rts : List WebContents) :
    ∃ p, (step st (Event.renderProcessHostCreated h rts)).1.render_process_host = some p := by
  cases hh : st.render_process_host with
  | none => exact ⟨h, by simp [step, OnRenderProcessHostCreated, hh]⟩
  | some q => exact ⟨q, by simp [step, OnRenderProcessHostCreated, hh]⟩

theorem runEvents_host_some_of_mem :
    ∀ (evs : List Event) (st : XWalkExtensionService) (h : RenderProcessHost)
      (rts : List WebContents),
      Event.renderProcessHostCreated h rts ∈ evs →
      (runEvents st evs).1.render_process_host ≠ none := by
  intro evs
  induction evs with
  | nil =>
    intro st h rts hmem
    simp at hmem
  | cons ev rest ih =>
    intro st h rts hmem
    simp only [runEvents]
    rcases List.mem_cons.mp hmem with heq | hmem2
    · subst heq
      obtain ⟨p, hp⟩ := step_process_host_some st h rts
      rw [runEvents_state_of_some hp rest, hp]
      simp
    · exact ih (step st ev).1 h rts hmem2

theorem runEvents_host_none :
    ∀ (evs : List Event) (st : XWalkExtensionService),
      (runEvents st evs).1.render_process_host = none ↔
        (st.render_process_host = none ∧
          ∀ h rts, Event.renderProcessHostCreated h rts ∉ evs) := by
  intro evs
  induction evs with
  | nil =>
    intro st
    simp [runEvents]
  | cons ev rest ih =>
    intro st
    cases ev with
    | runtimeAdded wc =>
      simp only [runEvents, step]
      rw [ih st]
      simp [List.mem_cons]
    | renderProcessHostCreated h rts =>
      apply iff_of_false
      · intro hnone
        obtain ⟨p, hp⟩ := step_process_host_some st h rts
        simp only [runEvents] at hnone
        rw [runEvents_state_of_some hp rest, hp] at hnone
        cases hnone
      · rintro ⟨-, hno⟩
        exact hno h rts (by simp)

/-- C2: starting from the freshly constructed service, after any
sequence of successful registrations the first content-process-created
event makes the service send exactly one register-extension
announcement (name plus JavaScript binding surface) per registered
extension to that process, in the exact order the extensions were
registered; the handler attachments for pre-existing frames follow the
announcements in the trace.  The registry's iteration order is
modelled from the spec (§3, insertion-ordered ExtensionMap). -/
theorem c2_announcement_order (exts : List XWalkExtension)
    (st : XWalkExtensionService) (host : RenderProcessHost)
    (runtimes : List WebContents)
    (h : registerAll emptyService exts = some st) :
    (OnRenderProcessHostCreated st host runtimes).2 =
      exts.map (fun e =>
          BrowserAction.sendRegisterExtension host e.name e.javaScriptAPI)
        ++ runtimes.map BrowserAction.createWebContentsHandler := by
  obtain ⟨hext, hhost⟩ := registerAll_extensions exts emptyService st h
  simp only [emptyService, List.nil_append] at hext hhost
  simp [OnRenderProcessHostCreated, hhost, RegisterExtensionsForNewHost, hext,
    List.map_map, Function.comp]

/-- C2 witness: two extensions registered in order a, b are announced
in that order to process 1, before the handler for frame 5. -/
theorem c2_witness :
    (OnRenderProcessHostCreated
        { extensions := [("a", { name := "a", javaScriptAPI := "ja" }),
            ("b", { name := "b", javaScriptAPI := "jb" })],
          render_process_host := none } 1 [5]).2 =
      [BrowserAction.sendRegisterExtension 1 "a" "ja",
        BrowserAction.sendRegisterExtension 1 "b" "jb",
        BrowserAction.createWebContentsHandler 5] :=
  c2_announcement_order
    [{ name := "a", javaScriptAPI := "ja" }, { name := "b", javaScriptAPI := "jb" }]
    { extensions := [("a", { name := "a", javaScriptAPI := "ja" }),
        ("b", { name := "b", javaScriptAPI := "jb" })],
      render_process_host := none } 1 [5] (by decide)

/-- C3 counterexample: with a content process already observed, a
registration attempt does not produce any synchronously reported
rejection: it trips CHECK(!render_process_host_), which aborts the
process (checkFailure in this embedding), contradicting the claim that
the attempt is rejected with an error reported to the caller and never
crashes the service. -/
theorem c3_counterexample :
    RegisterExtension { extensions := [], render_process_host := some 0 }
        { name := "a", javaScriptAPI := "js" } = RegisterResult.checkFailure := by
  decide

/-- C3 amended: once a content process has been observed, any
registration attempt, regardless of the name's validity, trips the
CHECK precondition and aborts the service before touching the
registry; no error value is returned synchronously to the caller. -/
theorem c3_register_after_attach_aborts (st : XWalkExtensionService)
    (e : XWalkExtension) (h : st.render_process_host ≠ none) :
    RegisterExtension st e = RegisterResult.checkFailure := by
  have hs : st.render_process_host.isSome = true := Option.ne_none_iff_isSome.mp h
  simp [RegisterExtension, hs]

/-- C3 witness: the amended theorem at a frozen service and an
extension whose name would pass validation. -/
theorem c3_witness :
    RegisterExtension { extensions := [], render_process_host := some 0 }
        { name := "valid.name", javaScriptAPI := "js" } =
      RegisterResult.checkFailure :=
  c3_register_after_attach_aborts _ _ (by simp)

/-- C4: on the first content-process-created event, within that single
handler invocation, the service records the process (freezing further
registration), then sends the announcement for every registered
extension to the process, and only then attaches a web-contents handler
to every frame existing at that moment — in the emitted action trace no
attachment precedes any announcement. -/
theorem c4_first_event_announces_then_attaches (st : XWalkExtensionService)
    (host : RenderProcessHost) (runtimes : List WebContents)
    (h : st.render_process_host = none) :
    OnRenderProcessHostCreated st host runtimes =
      ({ st with render_process_host := some host },
        (st.extensions.map fun kv =>
            BrowserAction.sendRegisterExtension host kv.2.name kv.2.javaScriptAPI)
          ++ runtimes.map BrowserAction.createWebContentsHandler) := by
  simp [OnRenderProcessHostCreated, h, RegisterExtensionsForNewHost]

/-- C4 witness: the theorem at a service with one registered extension
and two pre-existing frames. -/
theorem c4_witness :
    OnRenderProcessHostCreated
        { extensions := [("a", { name := "a", javaScriptAPI := "ja" })],
          render_process_host := none } 2 [4, 5] =
      ({ extensions := [("a", { name := "a", javaScriptAPI := "ja" })],
          render_process_host := some 2 },
        [BrowserAction.sendRegisterExtension 2 "a" "ja",
          BrowserAction.createWebContentsHandler 4,
          BrowserAction.createWebContentsHandler 5]) :=
  c4_first_event_announces_then_attaches _ 2 [4, 5] rfl

/-- C5 counterexample: at the pre-attachment registry state that
already holds an extension named "a", the first of two registration
calls carrying the name "a" already fails (the duplicate check makes
RegisterExtension return false), refuting the claim's "the first call
succeeds" for every pre-attachment registry state. -/
theorem c5_counterexample :
    RegisterResult.succeeded
      (RegisterExtension
        { extensions := [("a", { name := "a", javaScriptAPI := "ja" })],
          render_process_host := none }
        { name := "a", javaScriptAPI := "jb" }) = false := by
  decide

/-- C5 amended: for every pre-attachment registry state and two
extensions carrying the same name, provided that name passes validation
and is not yet present in the registry, the first call succeeds, the
second fails through the duplicate-name branch (DuplicateName, return
value false) leaving the state it carries untouched, and afterwards the
registry holds exactly one entry for that name. -/
theorem c5_duplicate_second_call_fails (st st1 : XWalkExtensionService)
    (e1 e2 : XWalkExtension)
    (hhost : st.render_process_host = none)
    (hname : e2.name = e1.name)
    (hvalid : ValidateExtensionName e1.name = true)
    (hfresh : findExtension st.extensions e1.name = none)
    (hst1 : st1 = { st with extensions := st.extensions ++ [(e1.name, e1)] }) :
    RegisterExtension st e1 = RegisterResult.registered st1 ∧
    RegisterExtension st1 e2 = RegisterResult.duplicateName st1 ∧
    (st1.extensions.filter (fun kv => kv.1 == e1.name)).length = 1 := by
  subst hst1
  refine ⟨register_eq_registered st e1 hhost hfresh hvalid, ?_, ?_⟩
  · have hfind : findExtension (st.extensions ++ [(e1.name, e1)]) e2.name = some e1 := by
      rw [hname, findExtension_append_none _ hfresh]
      simp [findExtension]
    simp [RegisterExtension, hhost, hfind]
  · simp only [List.filter_append]
    have hnone : st.extensions.filter (fun kv => kv.1 == e1.name) = [] := by
      rw [List.filter_eq_nil_iff]
      intro kv hkv
      have := (findExtension_none_iff.mp hfresh) kv hkv
      simp [this]
    rw [hnone]
    simp

/-- C5 witness: the amended theorem at the empty registry with two
extensions both named "a". -/
theorem c5_witness :
    RegisterExtension emptyService { name := "a", javaScriptAPI := "j1" } =
        RegisterResult.registered
          { extensions := [("a", { name := "a", javaScriptAPI := "j1" })],
            render_process_host := none } ∧
    RegisterExtension
        { extensions := [("a", { name := "a", javaScriptAPI := "j1" })],
          render_process_host := none }
        { name := "a", javaScriptAPI := "j2" } =
      RegisterResult.duplicateName
        { extensions := [("a", { name := "a", javaScriptAPI := "j1" })],
          render_process_host := none } ∧
    (List.filter (fun kv => kv.1 == "a")
        [("a", ({ name := "a", javaScriptAPI := "j1" } : XWalkExtension))]).length = 1 :=
  c5_duplicate_second_call_fails emptyService
    { extensions := [("a", { name := "a", javaScriptAPI := "j1" })],
      render_process_host := none }
    { name := "a", javaScriptAPI := "j1" } { name := "a", javaScriptAPI := "j2" }
    rfl rfl (by decide) rfl rfl

/-- C6: for every pre-attachment service state satisfying the registry
invariant of spec §3 (every stored name passes the validator) and every
name the validator rejects, registration fails through the invalid-name
branch: RegisterExtension returns false, the extension is not inserted,
the state carried by the result is the unchanged registry, and the
warning "Ignoring extension with invalid name: <name>" is surfaced to
the host log. -/
theorem c6_invalid_name_warned (st : XWalkExtensionService) (e : XWalkExtension)
    (hhost : st.render_process_host = none)
    (hwf : RegistryWF st)
    (hbad : ValidateExtensionName e.name = false) :
    RegisterExtension st e =
      RegisterResult.invalidName st
        ("Ignoring extension with invalid name: " ++ e.name) := by
  have hfind : findExtension st.extensions e.name = none :=
    findExtension_of_all_valid hwf hbad
  simp [RegisterExtension, hhost, hfind, hbad]

/-- C6 witness: the theorem at the freshly constructed service and the
invalid name "1bad". -/
theorem c6_witness :
    RegisterExtension emptyService { name := "1bad", javaScriptAPI := "js" } =
      RegisterResult.invalidName emptyService
        "Ignoring extension with invalid name: 1bad" :=
  c6_invalid_name_warned emptyService
    { name := "1bad", javaScriptAPI := "js" } rfl registryWF_empty (by decide)

/-- C7: the Unattached-to-Attached transition happens at most once —
after any observer-event history containing a content-process-created
event, a further content-process-created event is ignored: the service
state is unchanged and no announcement or attachment is emitted. -/
theorem c7_second_process_event_ignored (st0 : XWalkExtensionService)
    (evs : List Event) (h : RenderProcessHost) (rts : List WebContents)
    (p : RenderProcessHost) (prts : List WebContents)
    (hmem : Event.renderProcessHostCreated h rts ∈ evs) :
    OnRenderProcessHostCreated (runEvents st0 evs).1 p prts =
      ((runEvents st0 evs).1, []) := by
  have hs2 : (runEvents st0 evs).1.render_process_host.isSome = true :=
    Option.ne_none_iff_isSome.mp (runEvents_host_some_of_mem evs st0 h rts hmem)
  simp [OnRenderProcessHostCreated, hs2]

/-- C7 witness: after handling a first process-created event, a second
one for process 3 with an existing frame 9 is ignored. -/
theorem c7_witness :
    OnRenderProcessHostCreated
        (runEvents emptyService [Event.renderProcessHostCreated 0 []]).1 3 [9] =
      ((runEvents emptyService [Event.renderProcessHostCreated 0 []]).1, []) :=
  c7_second_process_event_ignored emptyService
    [Event.renderProcessHostCreated 0 []] 0 [] 3 [9] (by simp)

/-- C8: starting from the freshly constructed (unattached) service,
after any observer-event history a frame-created event attaches a
web-contents handler to the new frame exactly when the history contains
a content-process-created event; when no process has been observed yet,
nothing is attached for that event (attachment is deferred to the first
process-created event). -/
theorem c8_runtime_added_attachment (st0 : XWalkExtensionService)
    (evs : List Event) (wc : WebContents)
    (h0 : st0.render_process_host = none) :
    ((∃ h rts, Event.renderProcessHostCreated h rts ∈ evs) →
      OnRuntimeAdded (runEvents st0 evs).1 wc =
        [BrowserAction.createWebContentsHandler wc]) ∧
    ((∀ h rts, Event.renderProcessHostCreated h rts ∉ evs) →
      OnRuntimeAdded (runEvents st0 evs).1 wc = []) := by
  constructor
  · rintro ⟨h, rts, hmem⟩
    have hs2 : (runEvents st0 evs).1.render_process_host.isSome = true :=
      Option.ne_none_iff_isSome.mp (runEvents_host_some_of_mem evs st0 h rts hmem)
    simp [OnRuntimeAdded, hs2]
  · intro hno
    have hn : (runEvents st0 evs).1.render_process_host = none :=
      (runEvents_host_none evs st0).mpr ⟨h0, hno⟩
    simp [OnRuntimeAdded, hn]

/-- C8 witness: with a process seen, frame 7 gets a handler at once;
with no process seen, frame 8 gets nothing. -/
theorem c8_witness :
    OnRuntimeAdded (runEvents emptyService [Event.renderProcessHostCreated 0 []]).1 7 =
        [BrowserAction.createWebContentsHandler 7] ∧
    OnRuntimeAdded (runEvents emptyService []).1 8 = [] :=
  ⟨(c8_runtime_added_attachment emptyService
        [Event.renderProcessHostCreated 0 []] 7 rfl).1 ⟨0, [], by simp⟩,
    (c8_runtime_added_attachment emptyService [] 8 rfl).2 (by simp)⟩

/-- C9: for every fixed registry state, the per-process announcement
and the per-frame runner creation enumerate the registry identically:
the announcement list is exactly the runner list mapped to its
announcement, and the runner list carries the registry's extensions in
registry order.  Both are pure functions of the state, so repeated
invocations on the same state return the same sequence (order
stability; registry order modelled from the spec, §3). -/
theorem c9_enumerations_identical (st : XWalkExtensionService)
    (host : RenderProcessHost) (frame_id : Int) :
    RegisterExtensionsForNewHost st host =
      (CreateRunnersForHandler st frame_id).map
        (fun r => BrowserAction.sendRegisterExtension host
          r.extension.name r.extension.javaScriptAPI) ∧
    (CreateRunnersForHandler st frame_id).map (fun r => r.extension) =
      st.extensions.map Prod.snd := by
  constructor
  · simp [RegisterExtensionsForNewHost, CreateRunnersForHandler, List.map_map,
      Function.comp]
  · simp [CreateRunnersForHandler, List.map_map, Function.comp]

/-- C10: register/lookup round trip — after any sequence of successful
registrations from the freshly constructed service, GetExtensionForName
returns exactly the registered extension for each registered name, and
none for every name that was never successfully registered.
GetExtensionForName only reads extensions_ and is embedded as a pure
function of the state, so lookup cannot modify the registry. -/
theorem c10_register_lookup_roundtrip (exts : List XWalkExtension)
    (st : XWalkExtensionService)
    (h : registerAll emptyService exts = some st) :
    (∀ e ∈ exts, GetExtensionForName st e.name = some e) ∧
    (∀ name : String, name ∉ exts.map XWalkExtension.name →
      GetExtensionForName st name = none) := by
  constructor
  · intro e he
    exact registerAll_found exts emptyService st h e he
  · intro name hname
    exact registerAll_absent exts emptyService st name h rfl hname

/-- C10 witness: after registering only "a", looking up "a" returns the
registered extension and looking up "b" returns none. -/
theorem c10_witness :
    GetExtensionForName
        { extensions := [("a", { name := "a", javaScriptAPI := "j" })],
          render_process_host := none } "a" =
        some { name := "a", javaScriptAPI := "j" } ∧
    GetExtensionForName
        { extensions := [("a", { name := "a", javaScriptAPI := "j" })],
          render_process_host := none } "b" = none := by
  have h := c10_register_lookup_roundtrip [{ name := "a", javaScriptAPI := "j" }]
    { extensions := [("a", { name := "a", javaScriptAPI := "j" })],
      render_process_host := none } (by decide)
  exact ⟨h.1 { name := "a", javaScriptAPI := "j" } (by simp), h.2 "b" (by decide)⟩

end Crosswalk
